import Mathlib

/-!
# Verification of the Find_similiar catalog search frontend and index contracts

Shallow embedding of the repository's search-result filtering, pagination and
asset-path utilities (React frontend under `frontend/src/`), together with the
spec-described vector-index operations whose backend implementation is not part
of the sources at hand.  JavaScript numbers are modelled as exact rationals
(`ℚ`), strings as lists of characters, and `NaN`-able inputs as `Option ℚ`.
-/

namespace FindSimilar

/-- Strings are modelled as lists of characters. -/
abbrev Str := List Char

/-- A catalog product as the frontend receives it (`product` objects in
`SearchResult` payloads): `id`, `name`, `image_path`. -/
structure Product where
  id : Str
  name : Str
  image_path : Str
deriving DecidableEq

/-- One element of the `/search` response: a product plus its
`similarity_score` (a JS number, modelled as `ℚ`). -/
structure SearchResult where
  product : Product
  similarity_score : ℚ
deriving DecidableEq

/-! ## Image-path utilities (`frontend/src/utils/image.js`, also inlined in `App.js`) -/

/-- One step of `path.replace(/\\/g, '/')`: a backslash becomes a slash. -/
def backslashToSlash (c : Char) : Char :=
  if c = '\\' then '/' else c

/-- The character list of the literal `"data/"`. -/
def dataSlash : Str := 'd' :: 'a' :: 't' :: 'a' :: '/' :: []

/-- JavaScript `s.startsWith(p)` on character lists. -/
def startsWith : Str → Str → Bool
  | _, [] => true
  | [], _ :: _ => false
  | c :: cs, p :: ps => c == p && startsWith cs ps

/-- `normalizeImagePath` from `frontend/src/utils/image.js`: replace every
backslash by a slash, then ensure the result carries the `data/` prefix
(`data` is prepended to an absolute `/...` path, `data/` to anything else). -/
def normalizeImagePath (path : Str) : Str :=
  let normalized := path.map backslashToSlash
  if startsWith normalized dataSlash then normalized
  else if startsWith normalized ['/'] then 'd' :: 'a' :: 't' :: 'a' :: normalized
  else dataSlash ++ normalized

theorem startsWith_iff (p s : Str) : startsWith s p = true ↔ ∃ r, s = p ++ r := by
  induction p generalizing s with
  | nil => simp [startsWith]
  | cons c cs ih =>
    cases s with
    | nil => simp [startsWith]
    | cons a as =>
      simp only [startsWith, Bool.and_eq_true, beq_iff_eq, ih, List.cons_append,
        List.cons.injEq]
      constructor
      · rintro ⟨rfl, r, rfl⟩; exact ⟨r, rfl, rfl⟩
      · rintro ⟨r, rfl, rfl⟩; exact ⟨rfl, r, rfl⟩

theorem backslashToSlash_ne (c : Char) : backslashToSlash c ≠ '\\' := by
  unfold backslashToSlash
  split
  · decide
  · assumption

theorem not_mem_map_backslash (l : Str) : '\\' ∉ l.map backslashToSlash := by
  intro h
  obtain ⟨c, _, hc⟩ := List.mem_map.mp h
  exact backslashToSlash_ne c hc

theorem map_backslash_eq_self (l : Str) (h : '\\' ∉ l) :
    l.map backslashToSlash = l := by
  induction l with
  | nil => rfl
  | cons c cs ih =>
    simp only [List.mem_cons, not_or] at h
    simp only [List.map_cons, ih h.2, List.cons.injEq, and_true]
    unfold backslashToSlash
    split
    · exact absurd (by assumption) (Ne.symm h.1)
    · rfl

/-- `normalizeImagePath` always yields a `data/`-prefixed path. -/
theorem normalizeImagePath_data (p : Str) :
    ∃ r, normalizeImagePath p = dataSlash ++ r := by
  simp only [normalizeImagePath]
  split
  · exact (startsWith_iff _ _).mp (by assumption)
  · split
    · obtain ⟨r, hr⟩ := (startsWith_iff _ _).mp (by assumption)
      exact ⟨r, by simp [hr, dataSlash]⟩
    · exact ⟨p.map backslashToSlash, rfl⟩

/-- `normalizeImagePath` never emits a backslash. -/
theorem normalizeImagePath_no_backslash (p : Str) :
    '\\' ∉ normalizeImagePath p := by
  simp only [normalizeImagePath]
  split
  · exact not_mem_map_backslash p
  · split
    · intro h
      simp only [List.mem_cons] at h
      rcases h with h | h | h | h | h
      · exact absurd h (by decide)
      · exact absurd h (by decide)
      · exact absurd h (by decide)
      · exact absurd h (by decide)
      · exact not_mem_map_backslash p h
    · intro h
      rcases List.mem_append.mp h with h | h
      · exact absurd h (by decide)
      · exact not_mem_map_backslash p h

theorem startsWith_of_data (r : Str) : startsWith (dataSlash ++ r) dataSlash = true :=
  (startsWith_iff _ _).mpr ⟨r, rfl⟩

theorem normalizeImagePath_idem (p : Str) :
    normalizeImagePath (normalizeImagePath p) = normalizeImagePath p := by
  obtain ⟨r, hr⟩ := normalizeImagePath_data p
  have hnb : '\\' ∉ normalizeImagePath p := normalizeImagePath_no_backslash p
  generalize normalizeImagePath p = q at hr hnb
  subst hr
  simp only [normalizeImagePath, map_backslash_eq_self _ hnb]
  rw [if_pos (startsWith_of_data r)]

/-! ## Search-result filtering

`filterResults` in `frontend/src/hooks/useSearchResults.js` and the
`filteredResults` memo in `App.js` both keep the raw results whose
`similarity_score >= confidence`. -/

/-- `filterResults` from the `useSearchResults` hook:
`rawResults.filter((result) => result.similarity_score >= confidence)`. -/
def filterResults (rawResults : List SearchResult) (confidence : ℚ) : List SearchResult :=
  rawResults.filter fun result => decide (result.similarity_score ≥ confidence)

/-- The `filteredResults` memo in `App.js`:
`rawResults.filter((result) => result.similarity_score >= confidence)`. -/
def filteredResults (rawResults : List SearchResult) (confidence : ℚ) : List SearchResult :=
  rawResults.filter fun result => decide (result.similarity_score ≥ confidence)

/-- `totalMatchesDisplay` in `App.js`: show the backend-reported total when it
is a positive number and the applied confidence still equals the confidence of
the last search (within `0.0001`); otherwise fall back to the filtered length.
(The JS `typeof totalMatches === 'number'` guard always holds: that state is
initialised to `0` and only ever set to a non-`NaN` number.) -/
def totalMatchesDisplay (rawResults : List SearchResult) (confidence : ℚ)
    (totalMatches : ℚ) (lastSearchConfidence : ℚ) : ℚ :=
  if 0 < totalMatches ∧ abs (confidence - lastSearchConfidence) < 1 / 10000 then
    totalMatches
  else
    ((filteredResults rawResults confidence).length : ℚ)

/-- `displayCount` in `frontend/src/components/SearchResults.js`:
`Math.min(visibleCount, results.length)`. -/
def displayCount (results : List SearchResult) (visibleCount : ℕ) : ℕ :=
  min visibleCount results.length

/-- `visibleResults` in `SearchResults.js`: `results.slice(0, displayCount)`. -/
def visibleResults (results : List SearchResult) (visibleCount : ℕ) : List SearchResult :=
  results.take (displayCount results visibleCount)

/-- `totalLabelCount` in `SearchResults.js`: the `totalMatches` prop when it is
a non-`NaN` number (`none` models `NaN`/missing), else `results.length`. -/
def totalLabelCount (results : List SearchResult) (totalMatches : Option ℚ) : ℚ :=
  match totalMatches with
  | some t => t
  | none => (results.length : ℚ)

/-- `loadMore` from `useSearchResults.js`: the new `visibleCount` is
`Math.min(count + pageSize, matches)` where `matches` is the filtered length. -/
def loadMore (rawResults : List SearchResult) (confidence : ℚ)
    (pageSize visibleCount : ℕ) : ℕ :=
  min (visibleCount + pageSize) (filterResults rawResults confidence).length

/-- `handlePageSizeChange` in `frontend/src/components/CatalogBrowser.js`:
a `NaN` value (modelled `none`) leaves the page size unchanged, a numeric one
is committed as `Math.min(Math.max(1, value), effectiveMaxPageSize)`. -/
def handlePageSizeChange (value : Option ℚ) (currentPageSize maxPageSize : ℚ) : ℚ :=
  match value with
  | none => currentPageSize
  | some v => min (max 1 v) maxPageSize

/-! ## Asset URL building (`frontend/src/utils/productSearch.js`) -/

/-- Uppercase hexadecimal digit for `n < 16`. -/
def hexDigit (n : ℕ) : Char :=
  if n < 10 then Char.ofNat (48 + n) else Char.ofNat (55 + n)

/-- The `%XX` escape of one byte. -/
def percentByte (b : ℕ) : Str :=
  '%' :: hexDigit (b / 16) :: hexDigit (b % 16) :: []

/-- UTF-8 bytes of a Unicode scalar value. -/
def utf8Bytes (n : ℕ) : List ℕ :=
  if n < 128 then [n]
  else if n < 2048 then [192 + n / 64, 128 + n % 64]
  else if n < 65536 then [224 + n / 4096, 128 + n / 64 % 64, 128 + n % 64]
  else [240 + n / 262144, 128 + n / 4096 % 64, 128 + n / 64 % 64, 128 + n % 64]

/-- The characters `encodeURIComponent` leaves unescaped: ASCII letters,
digits, and `- _ . ! ~ * ' ( )` (the apostrophe written by code point). -/
def isUnescapedChar (c : Char) : Bool :=
  c.isAlpha || c.isDigit ||
    (['-', '_', '.', '!', '~', '*', Char.ofNat 39, '(', ')']).contains c

/-- JavaScript `encodeURIComponent` on one character. -/
def encodeChar (c : Char) : Str :=
  if isUnescapedChar c then [c] else ((utf8Bytes c.toNat).map percentByte).flatten

/-- JavaScript `encodeURIComponent` over a whole string. -/
def encodeURIComponent (s : Str) : Str := (s.map encodeChar).flatten

/-- JavaScript `s.split(sep)` for a one-character separator (keeps empty
segments, `"".split(sep)` is `[""]`). -/
def splitOnChar (sep : Char) : Str → List Str
  | [] => [[]]
  | c :: rest =>
    match splitOnChar sep rest with
    | [] => [[]]
    | s :: ss => if c = sep then [] :: s :: ss else (c :: s) :: ss

/-- JavaScript `parts.join(sep)` for a one-character separator. -/
def joinChar (sep : Char) : List Str → Str
  | [] => []
  | [s] => s
  | s :: ss => s ++ sep :: joinChar sep ss

/-- The JS `path.replace(/^data\//, '')`: drop one leading `data/` if present. -/
def stripLeadingData (s : Str) : Str :=
  if startsWith s dataSlash then s.drop 5 else s

/-- The character list of the literal `"/asset/"`. -/
def assetSeg : Str := '/' :: 'a' :: 's' :: 's' :: 'e' :: 't' :: '/' :: []

/-- `buildAssetUrl` from `frontend/src/utils/productSearch.js`: normalize the
image path, strip its leading `data/`, percent-encode each `/`-separated
segment with `encodeURIComponent`, re-join with `/`, and append the result to
`apiUrl + "/asset/"`. -/
def buildAssetUrl (apiUrl imagePath : Str) : Str :=
  let normalizedPath := stripLeadingData (normalizeImagePath imagePath)
  let encodedPath := joinChar '/' ((splitOnChar '/' normalizedPath).map encodeURIComponent)
  apiUrl ++ assetSeg ++ encodedPath

/-! ## Spec-modelled vector-index core

The backend (`backend/similarity_search.py`, `backend/services/catalog_service.py`)
is not among the sources at hand; the following definitions are modelled from
the specification of `VectorMath` and `CatalogIndex`. -/

/-- Modelled from the spec: `VectorMath.toConfidence`, the missing backend
similarity code's single similarity-to-confidence mapping `c = (s + 1) / 2`
(also documented in the repository README's "Similarity math"). -/
def toConfidence (s : ℚ) : ℚ := (s + 1) / 2

/-- Modelled from the spec: cosine similarity of two already-normalized
vectors is their dot product. -/
def dot (a b : List ℚ) : ℚ := ((a.zip b).map fun p => p.1 * p.2).sum

/-- Modelled from the spec: a catalog index is an ordered collection of
(product, embedding-vector) pairs with a fixed dimension. -/
structure CatalogIndex where
  dim : ℕ
  entries : List (Product × List ℚ)
deriving DecidableEq

/-- Stable insertion into a descending-confidence list: the new (originally
earlier) element goes before the first entry whose confidence does not exceed
its own, so ties keep insertion order. -/
def insertByConfidence (a : Product × ℚ) : List (Product × ℚ) → List (Product × ℚ)
  | [] => [a]
  | b :: rest => if a.2 < b.2 then b :: insertByConfidence a rest else a :: b :: rest

/-- Stable sort by descending confidence. -/
def sortByConfidence (l : List (Product × ℚ)) : List (Product × ℚ) :=
  l.foldr insertByConfidence []

/-- Modelled from the spec: `CatalogIndex.search`, the missing backend search —
cosine similarity against every stored vector, mapped through `toConfidence`,
kept by an inclusive epsilon-free `>=` against the threshold, stably sorted by
descending confidence, truncated to `topK`. -/
def search (idx : CatalogIndex) (q : List ℚ) (topK : ℕ) (minSimilarity : ℚ) :
    List (Product × ℚ) :=
  let scored := idx.entries.map fun e => (e.1, toConfidence (dot q e.2))
  let kept := scored.filter fun r => decide (r.2 ≥ minSimilarity)
  (sortByConfidence kept).take topK

/-- Modelled from the spec: the persisted snapshot of the missing backend
persistence layer — dimension, product list, and all vectors flattened into
one sequence. -/
structure SerializedIndex where
  dim : ℕ
  products : List Product
  flatVectors : List ℚ
deriving DecidableEq

/-- Modelled from the spec: `CatalogIndex.serialize` flattens the full
structural state into a `SerializedIndex`. -/
def serialize (idx : CatalogIndex) : SerializedIndex :=
  ⟨idx.dim, idx.entries.map Prod.fst, (idx.entries.map Prod.snd).flatten⟩

/-- Cut `count` vectors of length `dim` back out of a flat sequence; `none` on
a length mismatch. -/
def chunkVectors (dim : ℕ) : ℕ → List ℚ → Option (List (List ℚ))
  | 0, [] => some []
  | 0, _ :: _ => none
  | count + 1, flat =>
    if dim ≤ flat.length then
      (chunkVectors dim count (flat.drop dim)).map fun vs => flat.take dim :: vs
    else none

/-- Modelled from the spec: `CatalogIndex.deserialize` rebuilds the entry list
from the persisted snapshot, failing on a length mismatch. -/
def deserialize (s : SerializedIndex) : Option CatalogIndex :=
  (chunkVectors s.dim s.products.length s.flatVectors).map fun vs =>
    ⟨s.dim, s.products.zip vs⟩

/-- Index well-formedness: every stored vector has the index's dimension. -/
def WellFormed (idx : CatalogIndex) : Prop :=
  ∀ e ∈ idx.entries, e.2.length = idx.dim

theorem chunkVectors_flatten (dim : ℕ) (vs : List (List ℚ))
    (h : ∀ v ∈ vs, v.length = dim) :
    chunkVectors dim vs.length vs.flatten = some vs := by
  induction vs with
  | nil => rfl
  | cons v rest ih =>
    have hv : v.length = dim := h v (List.mem_cons_self v rest)
    have hrest : ∀ u ∈ rest, u.length = dim := fun u hu => h u (List.mem_cons_of_mem v hu)
    have ht : (v ++ rest.flatten).take dim = v := by rw [← hv]; simp
    have hd : (v ++ rest.flatten).drop dim = rest.flatten := by rw [← hv]; simp
    have hlen : dim ≤ (v ++ rest.flatten).length := by
      rw [List.length_append, ← hv]; omega
    simp only [List.length_cons, List.flatten_cons, chunkVectors, if_pos hlen, ht, hd,
      ih hrest, Option.map_some']

theorem zip_map_fst_map_snd (l : List (Product × List ℚ)) :
    (l.map Prod.fst).zip (l.map Prod.snd) = l := by
  induction l with
  | nil => rfl
  | cons a rest ih => simp [ih]

theorem deserialize_serialize (idx : CatalogIndex) (h : WellFormed idx) :
    deserialize (serialize idx) = some idx := by
  have hall : ∀ v ∈ idx.entries.map Prod.snd, v.length = idx.dim := by
    intro v hv
    obtain ⟨e, he, rfl⟩ := List.mem_map.mp hv
    exact h e he
  have hc := chunkVectors_flatten idx.dim (idx.entries.map Prod.snd) hall
  rw [List.length_map] at hc
  simp only [deserialize, serialize, List.length_map, hc, Option.map_some']
  rw [zip_map_fst_map_snd]

/-- Two raw results scoring 0.9, used to probe `totalMatchesDisplay`. -/
def cexResults : List SearchResult :=
  [⟨⟨['p', '1'], ['P'], []⟩, 9 / 10⟩, ⟨⟨['p', '2'], ['P'], []⟩, 9 / 10⟩]

/-! ## Claim theorems -/

/-- C1: the confidence filter applied before display keeps exactly those
results whose `similarity_score` is `>= t` — a score equal to `t` is kept,
the comparison being an epsilon-free inclusive `>=` — and keeps them in their
original order (the filtered list is a sublist of the input).  The hook's
`filterResults` and `App.js`'s `filteredResults` memo are the same filter. -/
theorem C1_confidence_filter (rs : List SearchResult) (t : ℚ) :
    (filterResults rs t).Sublist rs ∧
    (∀ r, r ∈ filterResults rs t ↔ r ∈ rs ∧ r.similarity_score ≥ t) ∧
    filteredResults rs t = filterResults rs t := by
  refine ⟨List.filter_sublist rs, fun r => ?_, rfl⟩
  simp [filterResults, List.mem_filter]

/-- C3: the rendered slice `results.slice(0, displayCount)` has length exactly
`min(visibleCount, results.length)`, hence never more than `visibleCount`
results are shown. -/
theorem C3_visible_results_bound (results : List SearchResult) (visibleCount : ℕ) :
    (visibleResults results visibleCount).length = min visibleCount results.length ∧
    (visibleResults results visibleCount).length ≤ visibleCount := by
  have h : (visibleResults results visibleCount).length = min visibleCount results.length := by
    simp only [visibleResults, displayCount, List.length_take]
    omega
  exact ⟨h, by omega⟩

/-- C4: on three results scoring 0.95 (A), 0.81 (B) and 0.60 (C) with
threshold 0.8, the confidence filter returns exactly `[A, B]` in that order and
the match count is 2. -/
theorem C4_scenario_filter :
    filterResults
        [⟨⟨['A'], ['A'], []⟩, 19 / 20⟩, ⟨⟨['B'], ['B'], []⟩, 81 / 100⟩,
          ⟨⟨['C'], ['C'], []⟩, 3 / 5⟩] (4 / 5) =
      [⟨⟨['A'], ['A'], []⟩, 19 / 20⟩, ⟨⟨['B'], ['B'], []⟩, 81 / 100⟩] ∧
    (filterResults
        [⟨⟨['A'], ['A'], []⟩, 19 / 20⟩, ⟨⟨['B'], ['B'], []⟩, 81 / 100⟩,
          ⟨⟨['C'], ['C'], []⟩, 3 / 5⟩] (4 / 5)).length = 2 := by
  norm_num [filterResults, List.filter]

/-- C5: a numeric page-size choice `v` is committed as
`min(max(1, v), maxPageSize)`, a `NaN` input leaves the page size unchanged,
and when the configured maximum is at least 1 the committed size lies in
`[1, maxPageSize]`. -/
theorem C5_page_size_clamp (v currentPageSize maxPageSize : ℚ) :
    handlePageSizeChange (some v) currentPageSize maxPageSize = min (max 1 v) maxPageSize ∧
    handlePageSizeChange none currentPageSize maxPageSize = currentPageSize ∧
    (1 ≤ maxPageSize →
      1 ≤ handlePageSizeChange (some v) currentPageSize maxPageSize ∧
      handlePageSizeChange (some v) currentPageSize maxPageSize ≤ maxPageSize) := by
  refine ⟨rfl, rfl, fun h => ⟨le_min (le_max_left 1 v) h, min_le_right _ _⟩⟩

/-- Witness for C5: at chosen size 500, current size 40 and maximum 200, the
hypothesis `1 ≤ 200` holds and the committed size lies in `[1, 200]`. -/
theorem C5_page_size_clamp_witness :
    (1 : ℚ) ≤ 200 ∧
      (1 ≤ handlePageSizeChange (some 500) 40 200 ∧
        handlePageSizeChange (some 500) 40 200 ≤ 200) :=
  ⟨by norm_num, (C5_page_size_clamp 500 40 200).2.2 (by norm_num)⟩

/-- C2 counterexample: with two raw results scoring 0.9, applied confidence 0.8
equal to the last search confidence, and stored `totalMatches = 1`,
`totalMatchesDisplay` is 1 while the filtered visible list has 2 elements, so
the displayed total is smaller than the number of results displayed. -/
theorem C2_total_display_counterexample :
    totalMatchesDisplay cexResults (4 / 5) 1 (4 / 5) <
      ((filteredResults cexResults (4 / 5)).length : ℚ) := by
  norm_num [totalMatchesDisplay, filteredResults, cexResults, List.filter]

/-- C2 (amended): whenever the stored `totalMatches` is at least
`rawResults.length` — which the backend count contract guarantees, the header
counting every entry above the threshold while the body is a truncated list of
them — the displayed total `totalMatchesDisplay` is at least the length of the
filtered visible result list, and in particular at least the length of any
rendered slice of it. -/
theorem C2_total_display_amended (raw : List SearchResult) (conf totalMatches last : ℚ)
    (h : (raw.length : ℚ) ≤ totalMatches) :
    ((filteredResults raw conf).length : ℚ) ≤ totalMatchesDisplay raw conf totalMatches last ∧
    ∀ visibleCount : ℕ,
      ((visibleResults (filteredResults raw conf) visibleCount).length : ℚ) ≤
        totalMatchesDisplay raw conf totalMatches last := by
  have hf : ((filteredResults raw conf).length : ℚ) ≤
      totalMatchesDisplay raw conf totalMatches last := by
    unfold totalMatchesDisplay
    split
    · calc ((filteredResults raw conf).length : ℚ)
          ≤ (raw.length : ℚ) := by exact_mod_cast List.length_filter_le _ _
        _ ≤ totalMatches := h
    · exact le_refl _
  refine ⟨hf, fun v => le_trans ?_ hf⟩
  have hv : (visibleResults (filteredResults raw conf) v).length ≤
      (filteredResults raw conf).length := by
    simp only [visibleResults, displayCount, List.length_take]
    omega
  exact_mod_cast hv

/-- Witness for the amended C2: with the two 0.9-scoring raw results and
`totalMatches = 5 ≥ 2`, the displayed total bounds the filtered length. -/
theorem C2_total_display_amended_witness :
    ((List.length cexResults : ℚ) ≤ 5) ∧
      ((filteredResults cexResults (4 / 5)).length : ℚ) ≤
        totalMatchesDisplay cexResults (4 / 5) 5 (4 / 5) := by
  have h : ((List.length cexResults : ℚ)) ≤ 5 := by norm_num [cexResults]
  exact ⟨h, (C2_total_display_amended cexResults (4 / 5) 5 (4 / 5) h).1⟩

/-- C8: `normalizeImagePath` always produces a `data/`-prefixed path, its
output contains no backslash, and it is idempotent. -/
theorem C8_normalizeImagePath_props (p : Str) :
    startsWith (normalizeImagePath p) dataSlash = true ∧
    '\\' ∉ normalizeImagePath p ∧
    normalizeImagePath (normalizeImagePath p) = normalizeImagePath p := by
  obtain ⟨r, hr⟩ := normalizeImagePath_data p
  exact ⟨hr ▸ startsWith_of_data r, normalizeImagePath_no_backslash p,
    normalizeImagePath_idem p⟩

/-- C10: after `loadMore(pageSize, confidence)` the visible-result counter is
at most the number of results passing the confidence filter and grows by at
most `pageSize` over its previous value. -/
theorem C10_loadMore_bounds (raw : List SearchResult) (conf : ℚ)
    (pageSize visibleCount : ℕ) :
    loadMore raw conf pageSize visibleCount ≤ (filterResults raw conf).length ∧
    loadMore raw conf pageSize visibleCount ≤ visibleCount + pageSize :=
  ⟨min_le_right _ _, min_le_left _ _⟩

/-- C9: `buildAssetUrl(apiUrl, p)` is exactly `apiUrl + "/asset/" + ` the
normalized path with its leading `data/` removed and every `/`-separated
segment percent-encoded via `encodeURIComponent`; on the repository's own test
input it yields `http://localhost:8000/asset/catalog/My%20Folder/item%201.jpg`. -/
theorem C9_buildAssetUrl (apiUrl p : Str) :
    buildAssetUrl apiUrl p =
      apiUrl ++ assetSeg ++
        joinChar '/'
          ((splitOnChar '/' ((normalizeImagePath p).drop 5)).map encodeURIComponent) ∧
    buildAssetUrl ("http://localhost:8000".toList)
        ("data/catalog/My Folder/item 1.jpg".toList) =
      "http://localhost:8000/asset/catalog/My%20Folder/item%201.jpg".toList := by
  constructor
  · obtain ⟨r, hr⟩ := normalizeImagePath_data p
    simp only [buildAssetUrl, stripLeadingData, hr, if_pos (startsWith_of_data r)]
  · decide

/-- C6: for a well-formed index, deserializing the serialized snapshot yields
an index that is search-identical to the original — the same ranking and the
same confidences (here exactly equal, hence within the 1e-6 tolerance) for
every query, `topK` and threshold. -/
theorem C6_serialize_roundtrip (idx : CatalogIndex) (h : WellFormed idx)
    (q : List ℚ) (topK : ℕ) (t : ℚ) :
    ∃ idx2, deserialize (serialize idx) = some idx2 ∧
      search idx2 q topK t = search idx q topK t :=
  ⟨idx, deserialize_serialize idx h, rfl⟩

/-- A small two-entry index used to witness C6. -/
def rtIndex : CatalogIndex :=
  ⟨2, [(⟨['A'], ['A'], []⟩, [1, 0]), (⟨['B'], ['B'], []⟩, [0, 1])]⟩

/-- Witness for C6: the two-entry index is well-formed, and serialization
round-trips on it without changing any search answer. -/
theorem C6_serialize_roundtrip_witness :
    WellFormed rtIndex ∧
      ∃ idx2, deserialize (serialize rtIndex) = some idx2 ∧
        search idx2 [1, 0] 5 (1 / 2) = search rtIndex [1, 0] 5 (1 / 2) := by
  have hw : WellFormed rtIndex := by
    intro e he
    simp only [rtIndex, List.mem_cons, List.not_mem_nil, or_false] at he
    rcases he with rfl | rfl <;> rfl
  exact ⟨hw, C6_serialize_roundtrip rtIndex hw [1, 0] 5 (1 / 2)⟩

/-- C7: the similarity-to-confidence mapping is `c = (s + 1) / 2`; every
cosine similarity in `[-1, 1]` is sent into `[0, 1]`; and the mapping
preserves threshold comparisons in both directions, so a confidence-space
comparison agrees with the underlying similarity-space comparison wherever the
one mapping is applied. -/
theorem C7_toConfidence (s t : ℚ) :
    toConfidence s = (s + 1) / 2 ∧
    (-1 ≤ s → s ≤ 1 → 0 ≤ toConfidence s ∧ toConfidence s ≤ 1) ∧
    (toConfidence t ≤ toConfidence s ↔ t ≤ s) := by
  refine ⟨rfl, fun h1 h2 => ⟨?_, ?_⟩, ?_⟩
  · unfold toConfidence; linarith
  · unfold toConfidence; linarith
  · unfold toConfidence
    constructor <;> intro h <;> linarith

/-- Witness for C7 at similarity `1/2` with hypotheses `-1 ≤ 1/2 ≤ 1`. -/
theorem C7_toConfidence_witness :
    (-1 ≤ (1 / 2 : ℚ)) ∧ ((1 / 2 : ℚ) ≤ 1) ∧
      (0 ≤ toConfidence (1 / 2) ∧ toConfidence (1 / 2) ≤ 1) :=
  ⟨by norm_num, by norm_num,
    (C7_toConfidence (1 / 2) 0).2.1 (by norm_num) (by norm_num)⟩

end FindSimilar
